import Mathlib

/-!
Shallow embedding of the image-fetch core of `tiempo_timelapse.py`:
the Validator Store (`MetadataCache`), the Content Cache (`ForecastCache`),
the Priority Planner (`MainWindow._build_priority_offsets`) and the
bounded-concurrency Fetch Scheduler (`ImageFetcher`), together with the
`MainWindow` response handlers that write through to the caches.

Python dictionaries are modelled as association lists in insertion order
(assignment to an existing key replaces in place, a new key is appended at
the end, exactly the CPython dict ordering contract); Python values that
can be arbitrary JSON are modelled by the inductive `Json`; operations
that can raise in Python return `Except String _` with the exception name
as the message.
-/

namespace Tiempo

/-- `DEFAULT_MAX_CONCURRENT = 4` (module constant). -/
def DEFAULT_MAX_CONCURRENT : Nat := 4

/-- `NEIGHBOR_PREFETCH = 2` (module constant). -/
def NEIGHBOR_PREFETCH : Nat := 2

/-- `build_offsets()` returns `list(range(6, 241, 6))`: the 40 forecast-hour
offsets `6, 12, …, 240`. -/
def build_offsets : List Nat := List.range' 6 40 6

/-- JSON values, as produced by `json.loads`. Numbers are restricted to
integers, which is all the validator documents ever hold. -/
inductive Json where
  | null : Json
  | bool (b : Bool) : Json
  | num (n : Int) : Json
  | str (s : String) : Json
  | arr (xs : List Json) : Json
  | obj (kvs : List (String × Json)) : Json

/-- Dictionary lookup on the association-list model of a Python dict. -/
def lookupKey : List (String × Json) → String → Option Json
  | [], _ => none
  | (k', v') :: rest, k => if k' = k then some v' else lookupKey rest k

/-- Dictionary assignment `d[k] = v`: replace in place if the key exists,
append at the end otherwise (CPython insertion-order semantics). -/
def setKey : List (String × Json) → String → Json → List (String × Json)
  | [], k, v => [(k, v)]
  | (k', v') :: rest, k, v =>
      if k' = k then (k, v) :: rest else (k', v') :: setKey rest k v

/-- Python truthiness of an optional string argument (`if etag:`):
`None` and the empty string are falsy. -/
def truthyOpt : Option String → Bool
  | none => false
  | some s => !s.isEmpty

/-- Python `key == elem` for a string `key` against an arbitrary JSON value:
true exactly on the equal string (cross-type equality is `False`). -/
def strEqJson (key : String) : Json → Bool
  | .str s => s = key
  | _ => false

/-- Python `key in j` for a string `key`: dict membership, substring test on
strings, element test on lists; `TypeError` on the other JSON values. -/
def jsonContains (key : String) : Json → Except String Bool
  | .obj kvs => .ok (lookupKey kvs key).isSome
  | .str s => .ok (decide (key.data <:+: s.data))
  | .arr xs => .ok (xs.any (strEqJson key))
  | _ => .error "TypeError: argument of type is not iterable"

/-- Python `j[key]` for a string `key`: dict item access; `TypeError` for
every non-dict value. -/
def jsonGetItem (key : String) : Json → Except String Json
  | .obj kvs =>
      match lookupKey kvs key with
      | some v => .ok v
      | none => .error "KeyError"
  | _ => .error "TypeError: indices must be integers"

/-- The on-disk validator document as seen by `MetadataCache._load`:
missing file, a file that `json.loads` rejects, or a parsed JSON value. -/
inductive DocFile where
  | missing : DocFile
  | malformed : DocFile
  | parsed (j : Json) : DocFile

/-- `MetadataCache._load`: `self.data` stays `{}` on a missing file, is reset
to `{}` when `json.loads` raises, and otherwise becomes the parsed value. -/
def mcLoad : DocFile → Json
  | .missing => .obj []
  | .malformed => .obj []
  | .parsed j => j

/-- The `MetadataCache` object: `self.data`, `self._dirty`, and the file at
`self.path` (the persisted document). -/
structure MetaState where
  data : Json
  dirty : Bool
  fileDoc : DocFile

/-- `MetadataCache.__init__`: `data = {}`, `_dirty = False`, then `_load()`.
Construction never raises: `json.loads` runs inside `try/except`. -/
def mcInit (f : DocFile) : MetaState :=
  { data := mcLoad f, dirty := false, fileDoc := f }

/-- `MetadataCache.headers_for(offset)`:
`entry = self.data.get(str(offset), {})`, then copy the `"etag"` and
`"last_modified"` items into a fresh dict when present. Raises
(`AttributeError`) when `self.data` is not a dict, and propagates the
`TypeError` of `in` / item access on a non-dict entry. -/
def mcHeadersFor (data : Json) (offset : Nat) : Except String (List (String × Json)) :=
  match data with
  | .obj kvs => do
      let entry := (lookupKey kvs (toString offset)).getD (.obj [])
      let hasEtag ← jsonContains "etag" entry
      let headers ← if hasEtag then do
          let v ← jsonGetItem "etag" entry
          pure [("etag", v)]
        else
          pure []
      let hasLm ← jsonContains "last_modified" entry
      let headers ← if hasLm then do
          let v ← jsonGetItem "last_modified" entry
          pure (headers ++ [("last_modified", v)])
        else
          pure headers
      pure headers
  | _ => .error "AttributeError: object has no attribute get"

/-- Set field `field` of the entry stored at `key` in the table `kvs`
(the Python `entry[field] = v` through the reference returned by
`setdefault`); `TypeError` when that entry is not a dict. -/
def objSetField (kvs : List (String × Json)) (key field : String) (v : Json) :
    Except String (List (String × Json)) :=
  match lookupKey kvs key with
  | some (.obj ekvs) => .ok (setKey kvs key (.obj (setKey ekvs field v)))
  | some _ => .error "TypeError: object does not support item assignment"
  | none => .error "KeyError"

/-- `MetadataCache.update(offset, etag, last_modified)` on `self.data`:
`entry = self.data.setdefault(str(offset), {})` (creates an empty dict entry
when the key is absent), then `entry["etag"] = etag` when `etag` is truthy
and `entry["last_modified"] = last_modified` when `last_modified` is truthy. -/
def mcUpdate (data : Json) (offset : Nat) (etag lastModified : Option String) :
    Except String Json :=
  match data with
  | .obj kvs => do
      let key := toString offset
      let kvs := if (lookupKey kvs key).isSome then kvs else kvs ++ [(key, .obj [])]
      let kvs ← if truthyOpt etag then
          objSetField kvs key "etag" (.str (etag.getD ""))
        else
          pure kvs
      let kvs ← if truthyOpt lastModified then
          objSetField kvs key "last_modified" (.str (lastModified.getD ""))
        else
          pure kvs
      pure (Json.obj kvs)
  | _ => .error "AttributeError: object has no attribute setdefault"

/-- `MetadataCache.update` as a step on the whole object: on success the new
table is installed and `self._dirty = True` runs unconditionally at the end. -/
def MetaState.update (s : MetaState) (offset : Nat) (etag lastModified : Option String) :
    Except String MetaState :=
  match mcUpdate s.data offset etag lastModified with
  | .ok d => .ok { s with data := d, dirty := true }
  | .error e => .error e

/-- `MetadataCache.save()`: a no-op when not dirty; otherwise serialize
`self.data` to the file (`json.dumps` always succeeds on `Json` and the
written text parses back to the same value, so the file now holds
`DocFile.parsed data`) and clear the dirty flag. The boolean reports whether
a disk write was performed. -/
def mcSave (s : MetaState) : MetaState × Bool :=
  if s.dirty then
    ({ s with dirty := false, fileDoc := .parsed s.data }, true)
  else
    (s, false)

/-- A decoded image (`QPixmap`); only identity matters to the core. -/
structure Pixmap where
  bytes : List Nat
deriving DecidableEq, Repr

/-- The validator headers attached to one key
(`{"etag": ..., "last_modified": ...}` with only truthy values present,
both in `MetadataCache.headers_for`'s result and in the scheduler's `meta`). -/
structure Validators where
  etag : Option String := none
  last_modified : Option String := none
deriving DecidableEq, Repr

/-- `QNetworkRequest.CacheLoadControlAttribute` values used by the code. -/
inductive CacheLoadControl where
  | alwaysNetwork : CacheLoadControl
  | preferNetwork : CacheLoadControl
deriving DecidableEq, Repr

/-- One outgoing `QNetworkRequest` as configured by `ImageFetcher._start_more`:
the formatted URL, the cache-load attribute, and the two optional conditional
raw headers. -/
structure Request where
  url : String
  cacheLoadControl : CacheLoadControl
  ifNoneMatch : Option String
  ifModifiedSince : Option String
deriving DecidableEq, Repr

/-- `{hour:03d}`: decimal digits zero-padded on the left to width 3. -/
def pad3 (n : Nat) : String :=
  let s := toString n
  if s.length < 3 then String.mk (List.replicate (3 - s.length) '0') ++ s else s

/-- `BASE_URL.format(hour=offset)`. -/
def formatUrl (offset : Nat) : String :=
  "https://services.meteored.com/img/models/ecmwf/ECMWF_" ++ pad3 offset
    ++ "_ES_SFC_es-ES_es.png"

/-- The request built for one dequeued offset inside `_start_more`:
`AlwaysNetwork` under `force_network` else `PreferNetwork`; then
`If-None-Match` from a truthy `etag` and `If-Modified-Since` from a truthy
`last_modified` of the per-key validator mapping, attached regardless of
`force_network`. -/
def buildRequest (forceNetwork : Bool) (headers : Validators) (offset : Nat) : Request :=
  { url := formatUrl offset
    cacheLoadControl := if forceNetwork then .alwaysNetwork else .preferNetwork
    ifNoneMatch := if truthyOpt headers.etag then headers.etag else none
    ifModifiedSince :=
      if truthyOpt headers.last_modified then headers.last_modified else none }

/-- The signals `ImageFetcher` can emit, in emission order per step. -/
inductive Event where
  | imageLoaded (offset : Nat) (pix : Pixmap) (meta : Validators) : Event
  | notModified (offset : Nat) : Event
  | imageError (offset : Nat) (reason : String) : Event
  | progressChanged (done total : Nat) : Event
  | batchFinished : Event
deriving DecidableEq, Repr

/-- The mutable state of an `ImageFetcher` object. The headers dict is
modelled as a total function, absent keys mapping to the empty dict
(`self._headers_by_offset.get(offset, {})`). -/
structure FetchState where
  queue : List Nat
  headersByOffset : Nat → Validators
  forceNetwork : Bool
  inFlight : Nat
  done : Nat
  total : Nat
  maxConcurrent : Nat

/-- `ImageFetcher.__init__`. -/
def initFetcher : FetchState :=
  { queue := [], headersByOffset := fun _ => {}, forceNetwork := false,
    inFlight := 0, done := 0, total := 0, maxConcurrent := DEFAULT_MAX_CONCURRENT }

/-- `ImageFetcher.set_max_concurrent(value)`: `max(1, int(value))`. -/
def set_max_concurrent (s : FetchState) (value : Int) : FetchState :=
  { s with maxConcurrent := (max 1 value).toNat }

/-- The `while self._in_flight < self._max_concurrent and self._queue:` loop
of `_start_more`, returning the remaining queue, the new in-flight count and
the requests issued (in issue order). -/
def startMoreLoop (cap : Nat) (bld : Nat → Request) :
    List Nat → Nat → List Nat × Nat × List Request
  | [], inFlight => ([], inFlight, [])
  | offset :: rest, inFlight =>
      if inFlight < cap then
        let r := startMoreLoop cap bld rest (inFlight + 1)
        (r.1, r.2.1, bld offset :: r.2.2)
      else
        (offset :: rest, inFlight, [])

/-- The request builder `_start_more` uses for this state's batch. -/
def FetchState.bld (s : FetchState) (offset : Nat) : Request :=
  buildRequest s.forceNetwork (s.headersByOffset offset) offset

/-- `ImageFetcher._start_more()`. -/
def startMore (s : FetchState) : FetchState × List Request :=
  let r := startMoreLoop s.maxConcurrent s.bld s.queue s.inFlight
  ({ s with queue := r.1, inFlight := r.2.1 }, r.2.2)

/-- `ImageFetcher.fetch_offsets(offsets, headers_by_offset, force_network)`:
reset the batch state; on an empty batch emit `batchFinished` at once and
issue no request, otherwise admit up to the cap. Returns the new state, the
signals emitted synchronously, and the requests issued. -/
def fetch_offsets (s : FetchState) (offsets : List Nat)
    (headersByOffset : Nat → Validators) (forceNetwork : Bool) :
    FetchState × List Event × List Request :=
  let s0 : FetchState :=
    { s with queue := offsets, headersByOffset := headersByOffset,
             forceNetwork := forceNetwork, inFlight := 0, done := 0,
             total := offsets.length }
  if s0.total = 0 then
    (s0, [.batchFinished], [])
  else
    let r := startMore s0
    (r.1, [], r.2)

/-- One finished `QNetworkReply` as `_on_finished` inspects it: the offset
property, the HTTP status attribute (absent on transport failure), the
transport error (`none` is `QNetworkReply.NoError`), whether
`QPixmap.loadFromData` succeeds on the body and the resulting pixmap, and
the decoded-and-stripped `ETag` / `Last-Modified` raw headers (empty string
when absent). -/
structure Response where
  offset : Nat
  status : Option Nat
  error : Option String
  decodes : Bool
  pixmap : Pixmap
  etag : String
  last_modified : String
deriving DecidableEq, Repr

/-- The `meta` dict built at the top of `_on_finished`. -/
def metaOf (r : Response) : Validators :=
  { etag := if r.etag.isEmpty then none else some r.etag
    last_modified := if r.last_modified.isEmpty then none else some r.last_modified }

/-- The response classification of `_on_finished`, in its priority order:
status 304, then transport success with decodable/undecodable body, then
transport error. -/
def classify (r : Response) : Event :=
  if r.status = some 304 then
    .notModified r.offset
  else if r.error = none then
    if r.decodes then .imageLoaded r.offset r.pixmap (metaOf r)
    else .imageError r.offset "invalid image data"
  else
    .imageError r.offset ((r.error).getD "")

/-- `ImageFetcher._on_finished(reply)`: emit the classified signal, decrement
in-flight, increment done, emit `progressChanged(done, total)`, then either
emit `batchFinished` (when `done == total`) or admit more queued keys. -/
def on_finished (s : FetchState) (r : Response) :
    FetchState × List Event × List Request :=
  let ev := classify r
  let s1 := { s with inFlight := s.inFlight - 1, done := s.done + 1 }
  if s1.done = s1.total then
    (s1, [ev, .progressChanged s1.done s1.total, .batchFinished], [])
  else
    let r2 := startMore s1
    (r2.1, [ev, .progressChanged s1.done s1.total], r2.2)

/-- Drive a batch through a list of responses, one `_on_finished` call per
response, collecting each step's emitted signals. -/
def runResponses : FetchState → List Response → FetchState × List (List Event)
  | s, [] => (s, [])
  | s, r :: rs =>
      let step := on_finished s r
      let rest := runResponses step.1 rs
      (rest.1, step.2.1 :: rest.2)

/-- All states visited while processing a list of responses (the state before
each step, and the final state). -/
def statesAlong : FetchState → List Response → List FetchState
  | s, [] => [s]
  | s, r :: rs => s :: statesAlong (on_finished s r).1 rs

/-- Number of `batchFinished` signals across a batch's per-step signal lists. -/
def countBatchFinished (evss : List (List Event)) : Nat :=
  (evss.map (fun evs => evs.count Event.batchFinished)).sum

/-- The planner's `add_index(idx)`: append `self.offsets[idx]` unless already
placed. The Python `seen` set always holds exactly the members of `order`,
so duplicate suppression is membership in `order`. -/
def addIndex (offsets order : List Nat) (idx : Nat) : List Nat :=
  let offset := offsets.getD idx 0
  if offset ∈ order then order else order ++ [offset]

/-- The planner's `for delta in range(1, NEIGHBOR_PREFETCH + 1)` loop body:
first `(current_index + delta) % total`, then `(current_index - delta) % total`
with Python's nonnegative `%` on a possibly negative left operand. -/
def prioNeighbors (offsets : List Nat) (currentIndex total : Nat) :
    List Nat → List Nat → List Nat
  | order, [] => order
  | order, delta :: rest =>
      let o1 := addIndex offsets order ((currentIndex + delta) % total)
      let o2 := addIndex offsets o1
        ((((currentIndex : Int) - (delta : Int)) % (total : Int)).toNat)
      prioNeighbors offsets currentIndex total o2 rest

/-- The planner's final `for offset in self.offsets` loop: append each offset
not yet placed, in domain order. -/
def appendRemaining (order : List Nat) : List Nat → List Nat
  | [] => order
  | offset :: rest =>
      if offset ∈ order then appendRemaining order rest
      else appendRemaining (order ++ [offset]) rest

/-- `MainWindow._build_priority_offsets()` over a given offset domain and
current index: the current offset first, then neighbours at distance
`1..NEIGHBOR_PREFETCH` alternating forward/backward with wrap-around, then
every remaining offset in domain order. -/
def build_priority_offsets (offsets : List Nat) (currentIndex : Nat) : List Nat :=
  let total := offsets.length
  let order := addIndex offsets [] currentIndex
  let order := prioNeighbors offsets currentIndex total order
    ((List.range NEIGHBOR_PREFETCH).map (· + 1))
  appendRemaining order offsets

/-- The `MainWindow` state the response handlers touch: the in-memory frame
table, the Content Cache's per-key files on disk, the Validator Store, and
the two batch counters. -/
structure AppState where
  frames : Nat → Option Pixmap
  cacheFiles : Nat → Option Pixmap
  metadata : MetaState
  progressUpdated : Nat
  progressUnchanged : Nat

/-- `ForecastCache.save(offset, pixmap)`: overwrite the per-key file. -/
def cacheSave (files : Nat → Option Pixmap) (offset : Nat) (pix : Pixmap) :
    Nat → Option Pixmap :=
  fun o => if o = offset then some pix else files o

/-- `MainWindow._on_image_loaded(offset, pixmap, meta)`: store the frame,
write the Content Cache file, merge the response validators into the
Validator Store, and bump the updated counter. (OCR and display refresh do
not touch these stores.) -/
def on_image_loaded (st : AppState) (offset : Nat) (pix : Pixmap) (meta : Validators) :
    Except String AppState :=
  match st.metadata.update offset meta.etag meta.last_modified with
  | .ok m =>
      .ok { st with frames := fun o => if o = offset then some pix else st.frames o,
                    cacheFiles := cacheSave st.cacheFiles offset pix,
                    metadata := m,
                    progressUpdated := st.progressUpdated + 1 }
  | .error e => .error e

/-- `MainWindow._on_image_not_modified(offset)`: only the unchanged counter
moves; frames, Content Cache and Validator Store are untouched. -/
def on_image_not_modified (st : AppState) (_offset : Nat) : AppState :=
  { st with progressUnchanged := st.progressUnchanged + 1 }

/-- A validator record satisfies the spec's record invariant when at least
one of its two fields is present (in particular it must be a dict). -/
def entryHasValidator : Json → Bool
  | .obj ekvs => (lookupKey ekvs "etag").isSome || (lookupKey ekvs "last_modified").isSome
  | _ => false

/-- The spec's Validator Store invariant on the whole table: the table is a
dict and every per-key record has at least one field. -/
def tableInvariant : Json → Bool
  | .obj kvs => kvs.all (fun p => entryHasValidator p.2)
  | _ => false

/-- The per-key outcome signals of the scheduler (`imageLoaded`,
`notModified`, `imageError`), as opposed to the batch-level `progressChanged`
and `batchFinished`. -/
def isPerKey : Event → Bool
  | .imageLoaded _ _ _ => true
  | .notModified _ => true
  | .imageError _ _ => true
  | .progressChanged _ _ => false
  | .batchFinished => false

/-! ### Association-list lemmas shared by the Validator Store proofs -/

theorem lookupKey_some_mem {kvs : List (String × Json)} {k : String} {v : Json}
    (h : lookupKey kvs k = some v) : (k, v) ∈ kvs := by
  induction kvs with
  | nil => simp [lookupKey] at h
  | cons p rest ih =>
      obtain ⟨k', v'⟩ := p
      by_cases hk : k' = k
      · subst hk
        simp [lookupKey] at h
        simp [h]
      · simp [lookupKey, hk] at h
        exact List.mem_cons_of_mem _ (ih h)

theorem lookupKey_append_of_none {kvs : List (String × Json)} {k : String}
    (h : lookupKey kvs k = none) (l : List (String × Json)) :
    lookupKey (kvs ++ l) k = lookupKey l k := by
  induction kvs with
  | nil => rfl
  | cons p rest ih =>
      obtain ⟨k', v'⟩ := p
      by_cases hk : k' = k
      · simp [lookupKey, hk] at h
      · simp only [lookupKey, hk, if_false, List.cons_append] at h ⊢
        exact ih h

theorem setKey_append_singleton {kvs : List (String × Json)} {k : String}
    (h : lookupKey kvs k = none) (v w : Json) :
    setKey (kvs ++ [(k, v)]) k w = kvs ++ [(k, w)] := by
  induction kvs with
  | nil => simp [setKey]
  | cons p rest ih =>
      obtain ⟨k', v'⟩ := p
      by_cases hk : k' = k
      · simp [lookupKey, hk] at h
      · simp only [lookupKey, hk, if_false] at h
        simp only [List.cons_append, setKey, hk, if_false]
        rw [show rest.append [(k, v)] = rest ++ [(k, v)] from rfl, ih h]

theorem mem_setKey {kvs : List (String × Json)} {k : String} {v : Json} {p : String × Json}
    (hp : p ∈ setKey kvs k v) : p = (k, v) ∨ p ∈ kvs := by
  induction kvs with
  | nil => simp [setKey] at hp; simp [hp]
  | cons q rest ih =>
      obtain ⟨k', v'⟩ := q
      by_cases hk : k' = k
      · simp only [setKey, hk, if_true] at hp
        rcases List.mem_cons.mp hp with h | h
        · exact Or.inl h
        · exact Or.inr (List.mem_cons_of_mem _ h)
      · simp only [setKey, hk, if_false] at hp
        rcases List.mem_cons.mp hp with h | h
        · exact Or.inr (List.mem_cons.mpr (Or.inl h))
        · rcases ih h with h' | h'
          · exact Or.inl h'
          · exact Or.inr (List.mem_cons_of_mem _ h')

theorem lookupKey_setKey_self (kvs : List (String × Json)) (k : String) (v : Json) :
    lookupKey (setKey kvs k v) k = some v := by
  induction kvs with
  | nil => simp [setKey, lookupKey]
  | cons q rest ih =>
      obtain ⟨k', v'⟩ := q
      by_cases hk : k' = k
      · simp [setKey, hk, lookupKey]
      · simp [setKey, hk, lookupKey, ih]

/-! ### Claim theorems: Validator Store persistence and headers -/

/-- C8: `MetadataCache.save` is idempotent with respect to persistence:
after any `save()`, a second `save()` with no intervening `update()` performs
no write (the first call cleared the dirty flag) and leaves the object and
the on-disk document unchanged. -/
theorem C8_save_idempotent (s : MetaState) :
    (mcSave (mcSave s).1).2 = false ∧ (mcSave (mcSave s).1).1 = (mcSave s).1 := by
  by_cases h : s.dirty <;> simp [mcSave, h]

/-- C9: a batch started with an empty key sequence fires `batchFinished`
synchronously as its only signal, issues no network request, and leaves
nothing queued or in flight. -/
theorem C9_empty_batch (s : FetchState) (hs : Nat → Validators) (force : Bool) :
    (fetch_offsets s [] hs force).2.1 = [Event.batchFinished] ∧
    (fetch_offsets s [] hs force).2.2 = [] ∧
    (fetch_offsets s [] hs force).1.queue = [] ∧
    (fetch_offsets s [] hs force).1.inFlight = 0 :=
  ⟨rfl, rfl, rfl, rfl⟩

/-- C3 counterexample: a batch started with `force_network=True` whose
per-key validator mapping holds an etag and a last-modified value issues a
request that still carries both conditional headers, contradicting the claim
that neither `If-None-Match` nor `If-Modified-Since` is sent. -/
theorem C3_counterexample :
    ((fetch_offsets initFetcher [6]
        (fun _ => { etag := some "abc", last_modified := some "xyz" }) true).2.2.map
        (fun r => (r.ifNoneMatch, r.ifModifiedSince)))
      = [(some "abc", some "xyz")] := by
  decide

/-- C3 amended: `force_network` controls only the request's cache-load
attribute (`AlwaysNetwork` instead of `PreferNetwork`); the conditional
headers are attached from the per-key validator mapping exactly as in the
non-forced case, for every key. -/
theorem C3_force_network_cache_attribute_only (hs : Validators) (offset : Nat) :
    (buildRequest true hs offset).cacheLoadControl = CacheLoadControl.alwaysNetwork ∧
    (buildRequest false hs offset).cacheLoadControl = CacheLoadControl.preferNetwork ∧
    (buildRequest true hs offset).ifNoneMatch = (buildRequest false hs offset).ifNoneMatch ∧
    (buildRequest true hs offset).ifModifiedSince
      = (buildRequest false hs offset).ifModifiedSince :=
  ⟨rfl, rfl, rfl, rfl⟩

/-- C6: a response with HTTP status 304 is classified as `notModified`; it is
the only per-key signal of that `_on_finished` step, and the `notModified`
handler leaves the frame table, the Content Cache files and the Validator
Store untouched. -/
theorem C6_not_modified_no_writes (r : Response) (h : r.status = some 304) :
    classify r = Event.notModified r.offset ∧
    (∀ s : FetchState, ((on_finished s r).2.1.filter isPerKey)
        = [Event.notModified r.offset]) ∧
    (∀ st : AppState,
      (on_image_not_modified st r.offset).frames = st.frames ∧
      (on_image_not_modified st r.offset).cacheFiles = st.cacheFiles ∧
      (on_image_not_modified st r.offset).metadata = st.metadata) := by
  refine ⟨by simp [classify, h], ?_, fun st => ⟨rfl, rfl, rfl⟩⟩
  intro s
  unfold on_finished
  by_cases hd : s.done + 1 = s.total <;>
    simp [hd, classify, h, isPerKey, List.filter]

/-- A concrete 304 response for offset 6, used to exercise the 304 path. -/
def resp304 : Response :=
  { offset := 6, status := some 304, error := none, decodes := false,
    pixmap := { bytes := [] }, etag := "", last_modified := "" }

/-- C6 witness: the 304 classification and write-freedom at the concrete
response `resp304`. -/
theorem C6_witness :
    resp304.status = some 304 ∧
    (classify resp304 = Event.notModified resp304.offset ∧
     (∀ s : FetchState, ((on_finished s resp304).2.1.filter isPerKey)
        = [Event.notModified resp304.offset]) ∧
     (∀ st : AppState,
        (on_image_not_modified st resp304.offset).frames = st.frames ∧
        (on_image_not_modified st resp304.offset).cacheFiles = st.cacheFiles ∧
        (on_image_not_modified st resp304.offset).metadata = st.metadata)) :=
  ⟨rfl, C6_not_modified_no_writes resp304 rfl⟩

theorem ok_bind {ε α β : Type} (a : α) (f : α → Except ε β) :
    (Except.ok a >>= f) = f a := rfl

theorem objSetField_ok {kvs : List (String × Json)} {key : String}
    {ekvs : List (String × Json)} (he : lookupKey kvs key = some (Json.obj ekvs))
    (f : String) (v : Json) :
    objSetField kvs key f v = .ok (setKey kvs key (Json.obj (setKey ekvs f v))) := by
  simp [objSetField, he]

theorem entryHasValidator_setKey (ekvs : List (String × Json)) (f : String) (v : Json)
    (hf : f = "etag" ∨ f = "last_modified") :
    entryHasValidator (Json.obj (setKey ekvs f v)) = true := by
  rcases hf with rfl | rfl <;>
    simp [entryHasValidator, lookupKey_setKey_self]

theorem all_good_setKey {kvs : List (String × Json)} {key : String} {e : Json}
    (hall : ∀ p ∈ kvs, entryHasValidator p.2 = true)
    (hge : entryHasValidator e = true) :
    ∀ p ∈ setKey kvs key e, entryHasValidator p.2 = true := by
  intro p hp
  rcases mem_setKey hp with h | h
  · rw [h]; exact hge
  · exact hall p h

/-- C7 counterexample: a document that is valid JSON but maps key `"6"` to
the number `3` loads successfully (the store is not empty), and
`headers_for(6)` then raises a `TypeError` from `"etag" in entry` — so
`headers_for` does not return a mapping for every store content. -/
theorem C7_counterexample :
    (mcInit (DocFile.parsed (Json.obj [("6", Json.num 3)]))).data
        = Json.obj [("6", Json.num 3)] ∧
    mcHeadersFor (mcInit (DocFile.parsed (Json.obj [("6", Json.num 3)]))).data 6
        = .error "TypeError: argument of type is not iterable" :=
  ⟨rfl, rfl⟩

/-- C7 amended: construction succeeds on every document; a document that
fails to parse loads as the empty table, `headers_for` then returns the
empty mapping for every key without raising, and any subsequent `update`
followed by `save` writes a document that parses back to the saved table.
(The \"never fails for any store content\" part is dropped: a parseable
document whose entries are not objects can make `headers_for` raise.) -/
theorem C7_malformed_recovery (k : Nat) (etag lm : Option String) :
    (mcInit DocFile.malformed).data = Json.obj [] ∧
    (mcInit DocFile.malformed).dirty = false ∧
    mcHeadersFor (mcInit DocFile.malformed).data k = .ok [] ∧
    ∃ s' : MetaState, (mcInit DocFile.malformed).update k etag lm = .ok s' ∧
      (mcSave s').2 = true ∧
      (mcSave s').1.fileDoc = DocFile.parsed s'.data ∧
      mcLoad (mcSave s').1.fileDoc = s'.data := by
  refine ⟨rfl, rfl, rfl, ?_⟩
  cases he : truthyOpt etag <;> cases hl : truthyOpt lm
  · refine ⟨{ data := Json.obj [(toString k, Json.obj [])],
              dirty := true,
              fileDoc := DocFile.malformed }, ?_, rfl, rfl, rfl⟩
    simp [MetaState.update, mcUpdate, mcInit, mcLoad, he, hl, lookupKey,
      pure, Except.pure, ok_bind]
  · refine ⟨{ data := Json.obj
                [(toString k, Json.obj [("last_modified", Json.str (lm.getD ""))])],
              dirty := true,
              fileDoc := DocFile.malformed }, ?_, rfl, rfl, rfl⟩
    simp [MetaState.update, mcUpdate, mcInit, mcLoad, he, hl, objSetField,
      setKey, lookupKey, ok_bind]
  · refine ⟨{ data := Json.obj
                [(toString k, Json.obj [("etag", Json.str (etag.getD ""))])],
              dirty := true,
              fileDoc := DocFile.malformed }, ?_, rfl, rfl, rfl⟩
    simp [MetaState.update, mcUpdate, mcInit, mcLoad, he, hl, objSetField,
      setKey, lookupKey, ok_bind]
  · refine ⟨{ data := Json.obj
                [(toString k, Json.obj [("etag", Json.str (etag.getD "")),
                  ("last_modified", Json.str (lm.getD ""))])],
              dirty := true,
              fileDoc := DocFile.malformed }, ?_, rfl, rfl, rfl⟩
    simp [MetaState.update, mcUpdate, mcInit, mcLoad, he, hl, objSetField,
      setKey, lookupKey, ok_bind]

/-- The store state used to witness C10: key `"6"` already has an etag. -/
def mcC10 : MetaState :=
  { data := Json.obj [("6", Json.obj [("etag", Json.str "x")])],
    dirty := false, fileDoc := DocFile.missing }

/-- C10: `MetadataCache.update` sets the dirty flag unconditionally, even
when both arguments are absent so that nothing is merged; for a key already
present the table is bit-for-bit unchanged, yet the next `save()` performs a
full disk write of that unchanged table. -/
theorem C10_update_always_dirties (s : MetaState) (k : Nat) (etag lm : Option String)
    (kvs : List (String × Json)) (h1 : s.data = Json.obj kvs)
    (h2 : (lookupKey kvs (toString k)).isSome = true) :
    (∀ s' : MetaState, s.update k etag lm = .ok s' → s'.dirty = true) ∧
    s.update k none none = .ok { s with dirty := true } ∧
    (mcSave { s with dirty := true }).2 = true ∧
    (mcSave { s with dirty := true }).1.fileDoc = DocFile.parsed s.data := by
  refine ⟨?_, ?_, rfl, rfl⟩
  · intro s' h
    unfold MetaState.update at h
    cases hm : mcUpdate s.data k etag lm with
    | ok d => rw [hm] at h; injection h with h'; rw [← h']
    | error e => rw [hm] at h; exact absurd h (by simp)
  · simp [MetaState.update, mcUpdate, h1, h2, truthyOpt, pure, Except.pure, ok_bind]

/-- C10 witness: the concrete store `mcC10` with key 6 present and a
no-field update. -/
theorem C10_witness :
    mcC10.data = Json.obj [("6", Json.obj [("etag", Json.str "x")])] ∧
    (lookupKey [("6", Json.obj [("etag", Json.str "x")])] (toString 6)).isSome = true ∧
    ((∀ s' : MetaState, mcC10.update 6 none none = .ok s' → s'.dirty = true) ∧
     mcC10.update 6 none none = .ok { mcC10 with dirty := true } ∧
     (mcSave { mcC10 with dirty := true }).2 = true ∧
     (mcSave { mcC10 with dirty := true }).1.fileDoc = DocFile.parsed mcC10.data) :=
  ⟨rfl, by decide, C10_update_always_dirties mcC10 6 none none _ rfl (by decide)⟩

/-- C4 counterexample: on the freshly constructed store (no document on
disk), `update(6, None, None)` — exactly the call `_on_image_loaded` makes
when a 200 response carries no validators — creates the record `{}` for key
`"6"`, a record with neither field, violating the store invariant. -/
theorem C4_counterexample :
    mcUpdate (mcInit DocFile.missing).data 6 none none
        = .ok (Json.obj [("6", Json.obj [])]) ∧
    (mcInit DocFile.missing).update 6 none none
        = .ok { data := Json.obj [("6", Json.obj [])], dirty := true,
                fileDoc := DocFile.missing } ∧
    lookupKey [("6", Json.obj [])] "6" = some (Json.obj []) ∧
    entryHasValidator (Json.obj []) = false ∧
    tableInvariant (Json.obj [("6", Json.obj [])]) = false :=
  ⟨rfl, rfl, rfl, rfl, rfl⟩

/-- C4 amended: the record invariant is not maintained by `update` when both
fields are absent (see the counterexample); it is maintained whenever every
`update` call carries at least one truthy field: on any table satisfying the
invariant, such an `update` succeeds and the resulting table satisfies the
invariant again. -/
theorem C4_invariant_with_truthy_updates (kvs : List (String × Json)) (k : Nat)
    (etag lm : Option String)
    (hd : tableInvariant (Json.obj kvs) = true)
    (hf : truthyOpt etag = true ∨ truthyOpt lm = true) :
    ∃ kvs' : List (String × Json),
      mcUpdate (Json.obj kvs) k etag lm = .ok (Json.obj kvs') ∧
      tableInvariant (Json.obj kvs') = true := by
  have hall : ∀ p ∈ kvs, entryHasValidator p.2 = true := by
    simpa [tableInvariant, List.all_eq_true] using hd
  have hsingle : ∀ v : Json, lookupKey [(toString k, v)] (toString k) = some v := by
    intro v; simp [lookupKey]
  by_cases hpres : (lookupKey kvs (toString k)).isSome = true
  · obtain ⟨e, he⟩ := Option.isSome_iff_exists.mp hpres
    have hgoodE : entryHasValidator e = true := hall _ (lookupKey_some_mem he)
    obtain ⟨ekvs, rfl⟩ : ∃ ekvs, e = Json.obj ekvs := by
      cases e <;> simp [entryHasValidator] at hgoodE ⊢
    cases hetag : truthyOpt etag <;> cases hlm : truthyOpt lm
    · simp [hetag, hlm] at hf
    · refine ⟨setKey kvs (toString k) (Json.obj (setKey ekvs "last_modified"
        (Json.str (lm.getD "")))), ?_, ?_⟩
      · simp [mcUpdate, hpres, hetag, hlm, objSetField_ok he]
      · simp only [tableInvariant, List.all_eq_true]
        exact fun p hp => all_good_setKey hall
          (entryHasValidator_setKey _ _ _ (Or.inr rfl)) p hp
    · refine ⟨setKey kvs (toString k) (Json.obj (setKey ekvs "etag"
        (Json.str (etag.getD "")))), ?_, ?_⟩
      · simp [mcUpdate, hpres, hetag, hlm, objSetField_ok he]
      · simp only [tableInvariant, List.all_eq_true]
        exact fun p hp => all_good_setKey hall
          (entryHasValidator_setKey _ _ _ (Or.inl rfl)) p hp
    · refine ⟨setKey (setKey kvs (toString k) (Json.obj (setKey ekvs "etag"
          (Json.str (etag.getD ""))))) (toString k)
          (Json.obj (setKey (setKey ekvs "etag" (Json.str (etag.getD "")))
            "last_modified" (Json.str (lm.getD "")))), ?_, ?_⟩
      · simp [mcUpdate, hpres, hetag, hlm, objSetField_ok he, ok_bind,
          objSetField_ok (lookupKey_setKey_self kvs (toString k) _)]
      · simp only [tableInvariant, List.all_eq_true]
        refine fun p hp => all_good_setKey (fun q hq => ?_)
          (entryHasValidator_setKey _ _ _ (Or.inr rfl)) p hp
        exact all_good_setKey hall
          (entryHasValidator_setKey _ _ _ (Or.inl rfl)) q hq
  · have hnone : lookupKey kvs (toString k) = none := by
      cases hx : lookupKey kvs (toString k) with
      | none => rfl
      | some v => rw [hx] at hpres; simp at hpres
    have hlook1 : lookupKey (kvs ++ [(toString k, Json.obj [])]) (toString k)
        = some (Json.obj []) := by
      rw [lookupKey_append_of_none hnone]; exact hsingle _
    have happall : ∀ (e : Json), entryHasValidator e = true →
        ∀ p ∈ kvs ++ [(toString k, e)], entryHasValidator p.2 = true := by
      intro e hge p hp
      rcases List.mem_append.mp hp with h | h
      · exact hall p h
      · simp only [List.mem_singleton] at h
        rw [h]
        exact hge
    cases hetag : truthyOpt etag <;> cases hlm : truthyOpt lm
    · simp [hetag, hlm] at hf
    · refine ⟨kvs ++ [(toString k, Json.obj (setKey [] "last_modified"
        (Json.str (lm.getD ""))))], ?_, ?_⟩
      · simp [mcUpdate, hpres, hetag, hlm, objSetField_ok hlook1,
          setKey_append_singleton hnone]
      · simp only [tableInvariant, List.all_eq_true]
        exact happall _ (entryHasValidator_setKey _ _ _ (Or.inr rfl))
    · refine ⟨kvs ++ [(toString k, Json.obj (setKey [] "etag"
        (Json.str (etag.getD ""))))], ?_, ?_⟩
      · simp [mcUpdate, hpres, hetag, hlm, objSetField_ok hlook1,
          setKey_append_singleton hnone]
      · simp only [tableInvariant, List.all_eq_true]
        exact happall _ (entryHasValidator_setKey _ _ _ (Or.inl rfl))
    · have hlook2 : lookupKey (kvs ++ [(toString k, Json.obj (setKey [] "etag"
          (Json.str (etag.getD ""))))]) (toString k)
          = some (Json.obj (setKey [] "etag" (Json.str (etag.getD "")))) := by
        rw [lookupKey_append_of_none hnone]; exact hsingle _
      refine ⟨kvs ++ [(toString k, Json.obj (setKey (setKey [] "etag"
          (Json.str (etag.getD ""))) "last_modified" (Json.str (lm.getD ""))))],
          ?_, ?_⟩
      · simp [mcUpdate, hpres, hetag, hlm, objSetField_ok hlook1, ok_bind,
          setKey_append_singleton hnone, objSetField_ok hlook2]
      · simp only [tableInvariant, List.all_eq_true]
        exact happall _ (entryHasValidator_setKey _ _ _ (Or.inr rfl))

/-- C4 amended witness: a truthy-etag update of key 6 on the good table
holding key `"12"`. -/
theorem C4_amended_witness :
    tableInvariant (Json.obj [("12", Json.obj [("etag", Json.str "y")])]) = true ∧
    (truthyOpt (some "abc") = true ∨ truthyOpt none = true) ∧
    ∃ kvs' : List (String × Json),
      mcUpdate (Json.obj [("12", Json.obj [("etag", Json.str "y")])]) 6
          (some "abc") none = .ok (Json.obj kvs') ∧
      tableInvariant (Json.obj kvs') = true :=
  ⟨by decide, Or.inl (by decide),
    C4_invariant_with_truthy_updates _ 6 (some "abc") none (by decide)
      (Or.inl (by decide))⟩

/-! ### Claim theorems: Priority Planner -/

/-- C5: with the full 40-offset domain and `current_index = 14` (the index of
offset 90) the planner's first five keys are `[90, 96, 84, 102, 78]`, and for
every in-range current index the full output is duplicate-free and a
permutation of the offset domain. -/
theorem C5_priority_planner (c : Nat) (h : c < 40) :
    (build_priority_offsets build_offsets 14).take 5 = [90, 96, 84, 102, 78] ∧
    (build_priority_offsets build_offsets c).Nodup ∧
    (build_priority_offsets build_offsets c).Perm build_offsets := by
  have key : ∀ c', c' < 40 →
      ((build_priority_offsets build_offsets c').Nodup ∧
       (build_priority_offsets build_offsets c').isPerm build_offsets = true) := by
    decide
  obtain ⟨h1, h2⟩ := key c h
  exact ⟨by decide, h1, List.isPerm_iff.mp h2⟩

/-- C5 witness: the planner at the concrete current index 14. -/
theorem C5_witness :
    14 < 40 ∧
    ((build_priority_offsets build_offsets 14).take 5 = [90, 96, 84, 102, 78] ∧
     (build_priority_offsets build_offsets 14).Nodup ∧
     (build_priority_offsets build_offsets 14).Perm build_offsets) :=
  ⟨by decide, C5_priority_planner 14 (by decide)⟩

/-! ### Scheduler lemmas for the progress and concurrency claims -/

theorem startMore_counters (s : FetchState) :
    (startMore s).1.done = s.done ∧ (startMore s).1.total = s.total ∧
    (startMore s).1.maxConcurrent = s.maxConcurrent :=
  ⟨rfl, rfl, rfl⟩

theorem on_finished_counters (s : FetchState) (r : Response) :
    (on_finished s r).1.done = s.done + 1 ∧ (on_finished s r).1.total = s.total ∧
    (on_finished s r).1.maxConcurrent = s.maxConcurrent := by
  unfold on_finished
  by_cases hd : s.done + 1 = s.total <;> simp [hd, startMore]

theorem classify_ne_batchFinished (r : Response) :
    classify r ≠ Event.batchFinished := by
  unfold classify
  by_cases h1 : r.status = some 304
  · simp [h1]
  · by_cases h2 : r.error = none
    · by_cases h3 : r.decodes <;> simp [h1, h2, h3]
    · simp [h1, h2]

theorem on_finished_count_batchFinished (s : FetchState) (r : Response) :
    (on_finished s r).2.1.count Event.batchFinished
      = if s.done + 1 = s.total then 1 else 0 := by
  unfold on_finished
  by_cases hd : s.done + 1 = s.total <;>
    simp [hd, List.count_cons, classify_ne_batchFinished r]

theorem on_finished_mem_batchFinished (s : FetchState) (r : Response) :
    Event.batchFinished ∈ (on_finished s r).2.1 ↔ s.done + 1 = s.total := by
  have hcl : Event.batchFinished ≠ classify r :=
    fun h => classify_ne_batchFinished r h.symm
  unfold on_finished
  by_cases hd : s.done + 1 = s.total <;> simp [hd, hcl]

theorem runResponses_counters (rs : List Response) : ∀ s : FetchState,
    (runResponses s rs).1.done = s.done + rs.length ∧
    (runResponses s rs).1.total = s.total := by
  induction rs with
  | nil => intro s; simp [runResponses]
  | cons r rs ih =>
      intro s
      have hstep := on_finished_counters s r
      have hrec := ih (on_finished s r).1
      simp only [runResponses, List.length_cons]
      refine ⟨?_, ?_⟩
      · rw [hrec.1, hstep.1]; omega
      · rw [hrec.2, hstep.2.1]

theorem runResponses_count_batchFinished (rs : List Response) : ∀ s : FetchState,
    s.done < s.total → s.done + rs.length ≤ s.total →
    countBatchFinished (runResponses s rs).2
      = if s.done + rs.length = s.total then 1 else 0 := by
  induction rs with
  | nil =>
      intro s h1 h2
      simp only [List.length_nil, Nat.add_zero]
      rw [if_neg (by omega)]
      simp [runResponses, countBatchFinished]
  | cons r rs ih =>
      intro s h1 h2
      simp only [List.length_cons] at h2 ⊢
      have hstep := on_finished_count_batchFinished s r
      have hdone := on_finished_counters s r
      have hsplit : countBatchFinished (runResponses s (r :: rs)).2
          = (on_finished s r).2.1.count Event.batchFinished
            + countBatchFinished (runResponses (on_finished s r).1 rs).2 := by
        simp [runResponses, countBatchFinished]
      rw [hsplit, hstep]
      by_cases hd : s.done + 1 = s.total
      · have hrs : rs.length = 0 := by omega
        obtain rfl : rs = [] := List.length_eq_zero.mp hrs
        simp only [List.length_nil, Nat.zero_add]
        rw [if_pos hd,
          show countBatchFinished (runResponses (on_finished s r).1 []).2 = 0 from rfl]
      · have hrec := ih (on_finished s r).1
          (by rw [hdone.1, hdone.2.1]; omega)
          (by rw [hdone.1, hdone.2.1]; omega)
        rw [if_neg hd, hrec, hdone.1, hdone.2.1]
        by_cases hc : s.done + 1 + rs.length = s.total
        · rw [if_pos hc, if_pos (by omega)]
        · rw [if_neg hc, if_neg (by omega)]

theorem runResponses_getD_batchFinished (rs : List Response) :
    ∀ (s : FetchState) (i : Nat), i < rs.length →
    (Event.batchFinished ∈ (runResponses s rs).2.getD i [] ↔
      s.done + i + 1 = s.total) := by
  induction rs with
  | nil => intro s i h; simp at h
  | cons r rs ih =>
      intro s i h
      cases i with
      | zero =>
          simp only [runResponses, List.getD_cons_zero]
          rw [on_finished_mem_batchFinished]
      | succ i =>
          have hdone := on_finished_counters s r
          simp only [runResponses, List.getD_cons_succ]
          rw [ih (on_finished s r).1 i (by simpa using Nat.lt_of_succ_lt_succ h),
            hdone.1, hdone.2.1]
          omega

theorem fetch_offsets_counters (s : FetchState) (offsets : List Nat)
    (hs : Nat → Validators) (force : Bool) :
    (fetch_offsets s offsets hs force).1.done = 0 ∧
    (fetch_offsets s offsets hs force).1.total = offsets.length := by
  unfold fetch_offsets
  by_cases h : offsets.length = 0 <;> simp [h, startMore]

/-- C1: for every batch over a non-empty key sequence and every prefix of
resolutions (in any response order and of any content), the completed
counter equals the number of resolved keys — it advances by exactly 1 per
`_on_finished` call; the batch start emits nothing; `batchFinished` is
emitted exactly once over the batch, and a resolution step carries it
exactly when it is the `total`-th resolution, i.e. when `done == total`. -/
theorem C1_progress_and_batch_finished (offsets : List Nat) (hs : Nat → Validators)
    (force : Bool) (rs : List Response) (hne : offsets ≠ [])
    (hlen : rs.length ≤ offsets.length) :
    (runResponses (fetch_offsets initFetcher offsets hs force).1 rs).1.done
        = rs.length ∧
    (fetch_offsets initFetcher offsets hs force).2.1 = [] ∧
    countBatchFinished
        (runResponses (fetch_offsets initFetcher offsets hs force).1 rs).2
      = (if rs.length = offsets.length then 1 else 0) ∧
    ∀ i, i < rs.length →
      (Event.batchFinished ∈
          ((runResponses (fetch_offsets initFetcher offsets hs force).1 rs).2.getD i [])
        ↔ i + 1 = offsets.length) := by
  have hpos : 0 < offsets.length := List.length_pos.mpr hne
  have hst := fetch_offsets_counters initFetcher offsets hs force
  refine ⟨?_, ?_, ?_, ?_⟩
  · rw [(runResponses_counters rs _).1, hst.1]
    omega
  · unfold fetch_offsets
    rw [if_neg (by simpa using Nat.pos_iff_ne_zero.mp hpos)]
  · rw [runResponses_count_batchFinished rs _ (by rw [hst.1, hst.2]; omega)
        (by rw [hst.1, hst.2]; omega), hst.1, hst.2]
    by_cases hc : rs.length = offsets.length
    · rw [if_pos (by omega), if_pos hc]
    · rw [if_neg (by omega), if_neg hc]
  · intro i hi
    rw [runResponses_getD_batchFinished rs _ i hi, hst.1, hst.2]
    omega

/-- A concrete successful response used by the batch witnesses. -/
def respOk (o : Nat) : Response :=
  { offset := o, status := some 200, error := none, decodes := true,
    pixmap := { bytes := [o] }, etag := "e1", last_modified := "" }

/-- C1 witness: a concrete two-key batch resolved by two responses. -/
theorem C1_witness :
    ([6, 12] ≠ ([] : List Nat)) ∧
    ([respOk 6, respOk 12].length ≤ [6, 12].length) ∧
    ((runResponses (fetch_offsets initFetcher [6, 12] (fun _ => {}) false).1
        [respOk 6, respOk 12]).1.done = [respOk 6, respOk 12].length ∧
     (fetch_offsets initFetcher [6, 12] (fun _ => {}) false).2.1 = [] ∧
     countBatchFinished (runResponses
        (fetch_offsets initFetcher [6, 12] (fun _ => {}) false).1
        [respOk 6, respOk 12]).2
       = (if [respOk 6, respOk 12].length = [6, 12].length then 1 else 0) ∧
     ∀ i, i < [respOk 6, respOk 12].length →
       (Event.batchFinished ∈
           ((runResponses (fetch_offsets initFetcher [6, 12] (fun _ => {}) false).1
             [respOk 6, respOk 12]).2.getD i [])
         ↔ i + 1 = [6, 12].length)) :=
  ⟨by decide, by decide,
    C1_progress_and_batch_finished [6, 12] (fun _ => {}) false
      [respOk 6, respOk 12] (by decide) (by decide)⟩

theorem startMoreLoop_le (cap : Nat) (bld : Nat → Request) :
    ∀ (q : List Nat) (f : Nat), f ≤ cap → (startMoreLoop cap bld q f).2.1 ≤ cap := by
  intro q
  induction q with
  | nil => intro f h; exact h
  | cons o rest ih =>
      intro f h
      by_cases hf : f < cap
      · simp only [startMoreLoop, hf, if_true]
        exact ih (f + 1) hf
      · simp only [startMoreLoop, hf, if_false]
        exact h

theorem startMore_inFlight_le (s : FetchState) (h : s.inFlight ≤ s.maxConcurrent) :
    (startMore s).1.inFlight ≤ (startMore s).1.maxConcurrent := by
  simp only [startMore]
  exact startMoreLoop_le _ _ _ _ h

theorem on_finished_inFlight_le (s : FetchState) (r : Response)
    (h : s.inFlight ≤ s.maxConcurrent) :
    (on_finished s r).1.inFlight ≤ (on_finished s r).1.maxConcurrent := by
  unfold on_finished
  dsimp only
  split
  · dsimp only
    omega
  · exact startMore_inFlight_le _ (by dsimp only; omega)

theorem statesAlong_inv (rs : List Response) : ∀ s : FetchState,
    s.inFlight ≤ s.maxConcurrent →
    ∀ st ∈ statesAlong s rs, st.inFlight ≤ st.maxConcurrent := by
  induction rs with
  | nil =>
      intro s h st hst
      simp only [statesAlong, List.mem_singleton] at hst
      rw [hst]; exact h
  | cons r rs ih =>
      intro s h st hst
      simp only [statesAlong, List.mem_cons] at hst
      rcases hst with rfl | hst
      · exact h
      · exact ih _ (on_finished_inFlight_le s r h) st hst

theorem fetch_offsets_inFlight_le (s : FetchState) (offsets : List Nat)
    (hs : Nat → Validators) (force : Bool) :
    (fetch_offsets s offsets hs force).1.inFlight
      ≤ (fetch_offsets s offsets hs force).1.maxConcurrent := by
  unfold fetch_offsets
  by_cases h : offsets.length = 0
  · simp [h]
  · simp only [h, if_neg]
    exact startMore_inFlight_le _ (by simp)

/-- C2: along any batch — from `fetch_offsets` through every `_on_finished`
resolution — the in-flight count never exceeds the configured concurrency
cap, and `set_max_concurrent` clamps every requested value to at least 1. -/
theorem C2_in_flight_bounded (s : FetchState) (offsets : List Nat)
    (hs : Nat → Validators) (force : Bool) (rs : List Response) (st : FetchState)
    (hmem : st ∈ statesAlong (fetch_offsets s offsets hs force).1 rs) :
    st.inFlight ≤ st.maxConcurrent ∧
    (∀ v : Int, 1 ≤ (set_max_concurrent s v).maxConcurrent) := by
  refine ⟨statesAlong_inv rs _ (fetch_offsets_inFlight_le s offsets hs force) st hmem, ?_⟩
  intro v
  simp only [set_max_concurrent]
  have h1 : (1 : Int) ≤ max 1 v := le_max_left _ _
  omega

/-- C2 witness: the state right after starting a concrete one-key batch. -/
theorem C2_witness :
    ((fetch_offsets initFetcher [6] (fun _ => {}) false).1
        ∈ statesAlong (fetch_offsets initFetcher [6] (fun _ => {}) false).1 []) ∧
    ((fetch_offsets initFetcher [6] (fun _ => {}) false).1.inFlight
        ≤ (fetch_offsets initFetcher [6] (fun _ => {}) false).1.maxConcurrent ∧
     ∀ v : Int, 1 ≤ (set_max_concurrent initFetcher v).maxConcurrent) :=
  ⟨List.mem_singleton.mpr rfl,
    C2_in_flight_bounded initFetcher [6] (fun _ => {}) false []
      _ (List.mem_singleton.mpr rfl)⟩

end Tiempo
